import Mathlib

/-!
Verification of the go.rtmp protocol core (huhaibo/go.rtmp).

This file shallowly embeds the parts of the repository needed to settle the
frozen claims: the AMF0 value codec (`src/rtmp/amf0.go`, first draft, the one
with the insertion-ordered hashtable), the inbound chunk codec
(`src/rtmp/protocol.go`), the ACK-window bookkeeping, the simple handshake
(`src/unnamed/part_000`) and the connect-packet decoder
(`src/rtmp/messages.go`).

Conventions of the embedding:
* Go byte slices and strings are `List Nat`, every element intended `< 256`
  (Go's `byte` type guarantees this; theorems carry it as a hypothesis where
  it matters).
* Go machine integers are `Nat` with explicit `% 2^w` at the points where Go's
  fixed width can overflow or truncate.
* Go `float64` values are represented by their 64-bit IEEE-754 bit pattern
  (a `Nat < 2^64`): the codec only ever moves the 8 bytes between the wire and
  `math.Float64bits`/`Float64frombits`, which is a bijection on bit patterns.
* fallible Go functions (`err error` results) become `Except Err _`.
* the byte stream that `EnsureBufferBytes` pulls from the socket is modelled as
  one `List Nat` holding everything the peer will ever send; `ensure n` fails
  (with `Err.ioError`, the model of a transport error/EOF) when fewer than `n`
  bytes remain.  Recursive loops over untrusted input take a fuel parameter;
  exhaustion yields the artificial `Err.outOfFuel`, which no theorem below
  ever reaches.
-/

namespace GoRtmp

/-- The closed error taxonomy of the repository (`RtmpError.code` values;
the numeric codes live in a source file outside `src/`, only the identity of
each code matters to the claims). -/
inductive Err : Type where
  | ioError        : Err   -- transport read/write failure (`io.ReadFull`, `conn.Read` errors)
  | chunkStart     : Err   -- ERROR_RTMP_CHUNK_START
  | packetSize     : Err   -- ERROR_RTMP_PACKET_SIZE
  | invalidMsgSize : Err   -- ERROR_RTMP_MSG_INVLIAD_SIZE
  | amf0Decode     : Err   -- ERROR_RTMP_AMF0_DECODE
  | amf0Encode     : Err   -- ERROR_RTMP_AMF0_ENCODE
  | amf0Invalid    : Err   -- ERROR_RTMP_AMF0_INVALID
  | nilProperty    : Err   -- ERROR_GO_AMF0_NIL_PROPERTY
  | panicked       : Err   -- a Go runtime panic (nil dereference / slice bounds); unreachable under the state invariant
  | outOfFuel      : Err   -- artefact of the fuelled embedding, unreachable with enough fuel
  deriving DecidableEq

/-- Big-endian byte composition: `binary.BigEndian.UintNN` over bytes `< 256`
(`b0<<8 | b1` equals `256*b0 + b1` for bytes). -/
def beVal (bs : List Nat) : Nat :=
  bs.foldl (fun a b => 256 * a + b) 0

/-- Big-endian byte decomposition, `k` bytes of `n` (the semantics of
`binary.BigEndian.PutUintNN` / the manual shift-and-mask writers). -/
def natToBytes : Nat → Nat → List Nat
  | 0, _ => []
  | k + 1, n => (n / 256 ^ k % 256) :: natToBytes k n

@[simp] theorem natToBytes_length (k n : Nat) : (natToBytes k n).length = k := by
  induction k generalizing n with
  | zero => rfl
  | succ k ih => simp [natToBytes, ih]

theorem natToBytes_lt (k n : Nat) : ∀ b ∈ natToBytes k n, b < 256 := by
  induction k generalizing n with
  | zero => intro b hb; simp [natToBytes] at hb
  | succ k ih =>
    intro b hb
    simp only [natToBytes, List.mem_cons] at hb
    rcases hb with h | h
    · subst h; exact Nat.mod_lt _ (by norm_num)
    · exact ih n b h

theorem beVal_cons (b : Nat) (bs : List Nat) :
    beVal (b :: bs) = b * 256 ^ bs.length + beVal bs := by
  have key : ∀ (l : List Nat) (a : Nat),
      l.foldl (fun a b => 256 * a + b) a = a * 256 ^ l.length + beVal l := by
    intro l
    induction l with
    | nil => intro a; simp [beVal]
    | cons x xs ih =>
      intro a
      have h2 : beVal (x :: xs) = List.foldl (fun a b => 256 * a + b) x xs := by
        simp [beVal]
      simp only [List.foldl_cons, List.length_cons, h2, ih (256 * a + x), ih x]
      ring
  simpa [beVal] using key bs b

theorem beVal_natToBytes (k n : Nat) : beVal (natToBytes k n) = n % 256 ^ k := by
  induction k generalizing n with
  | zero => simp [natToBytes, beVal, Nat.mod_one]
  | succ k ih =>
    rw [natToBytes, beVal_cons, natToBytes_length, ih]
    have h256 : (256 : Nat) ^ (k + 1) = 256 ^ k * 256 := by ring
    rw [h256, Nat.mod_mul]
    ring

theorem beVal_natToBytes_self (k n : Nat) (h : n < 256 ^ k) :
    beVal (natToBytes k n) = n := by
  rw [beVal_natToBytes]; exact Nat.mod_eq_of_lt h

/-! ## AMF0 values (`src/rtmp/amf0.go`, first draft — the insertion-ordered one)

`RtmpAmf0Any` is a `(Marker, Value)` pair whose `Value` is one of: `float64`,
`bool`, `string`, `*RtmpAmf0Object`, `*RtmpAmf0EcmaArray`, or `nil` (for the
Null / Undefined / ObjectEnd markers).  The ordered hashtable
`RtmpAmf0UnSortedHashtable` (property_index + properties map) is modelled as
the association list it maintains: index order with the current value of each
name. -/

inductive Amf0Any : Type where
  /-- `RTMP_AMF0_Number` (0x00); payload is `math.Float64bits` of the Go value. -/
  | num     : Nat → Amf0Any
  /-- `RTMP_AMF0_Boolean` (0x01). -/
  | boolean : Bool → Amf0Any
  /-- `RTMP_AMF0_String` (0x02); Go string as raw bytes. -/
  | str     : List Nat → Amf0Any
  /-- `RTMP_AMF0_Object` (0x03): ordered `(name, value)` pairs. -/
  | obj     : List (List Nat × Amf0Any) → Amf0Any
  /-- `RTMP_AMF0_EcmaArray` (0x08): `count` field plus ordered pairs. -/
  | ecma    : Nat → List (List Nat × Amf0Any) → Amf0Any
  /-- `RTMP_AMF0_Null` (0x05): marker only, `Value` stays `nil`. -/
  | null    : Amf0Any
  /-- `RTMP_AMF0_Undefined` (0x06): marker only, `Value` stays `nil`. -/
  | undef   : Amf0Any
  /-- `RTMP_AMF0_ObjectEnd` (0x09): marker only, `Value` stays `nil`. -/
  | objEnd  : Amf0Any

/-- `RtmpAmf0Any.IsNil`: `Value == nil`.  After a successful
`RtmpAmf0Any.Read`, the `Value` field is `nil` exactly for the three
pass-through markers (Null, Undefined, ObjectEnd), which only `Next(1)`. -/
def amf0IsNil : Amf0Any → Bool
  | .null | .undef | .objEnd => true
  | _ => false

/-- `RtmpAmf0Any.IsObjectEof`: `Marker == RTMP_AMF0_ObjectEnd`. -/
def amf0IsObjectEof : Amf0Any → Bool
  | .objEnd => true
  | _ => false

/-- `RtmpAmf0UnSortedHashtable.Set`: a new name is appended to
`property_index`; an existing name keeps its slot and gets the new value. -/
def hashSet (props : List (List Nat × Amf0Any)) (k : List Nat) (v : Amf0Any) :
    List (List Nat × Amf0Any) :=
  if props.any (fun p => p.1 == k) then
    props.map (fun p => if p.1 == k then (k, v) else p)
  else
    props ++ [(k, v)]

/-! ### Encoding

The Go writers emit through a pre-sized `RtmpHPBuffer`; every write is guarded
by a `Requires` room check that errors with `ERROR_RTMP_AMF0_ENCODE` when the
buffer is too small and otherwise copies bytes verbatim.  The functions below
are the byte sequences of the successful path (the callers —
`Protocol.SendPacket` — always allocate `Size()` bytes). -/

/-- `RtmpAmf0Codec.WriteObjectEOF`: `WriteUInt16(0)` then the 0x09 marker. -/
def objectEOFBytes : List Nat := [0, 0, 9]

/-- `RtmpAmf0Codec.WriteUtf8`: `WriteUInt16(uint16(len(v)))` then the bytes
(nothing more for the empty string). -/
def writeUtf8 (s : List Nat) : List Nat := natToBytes 2 s.length ++ s

mutual

/-- `RtmpAmf0Any.Write` dispatch by marker. -/
def amf0AnyWrite : Amf0Any → List Nat
  | .num bits => 0 :: natToBytes 8 bits
  | .boolean b => [1, if b then 1 else 0]
  | .str s => 2 :: writeUtf8 s
  | .obj props => 3 :: (amf0PropsWrite props ++ objectEOFBytes)
  | .ecma count props =>
      8 :: (natToBytes 4 count ++ (amf0PropsWrite props ++ objectEOFBytes))
  | .null => [5]
  | .undef => [6]
  | .objEnd => objectEOFBytes

/-- `RtmpAmf0UnSortedHashtable.Write`: each property in `property_index`
order as utf8 name followed by the value. -/
def amf0PropsWrite : List (List Nat × Amf0Any) → List Nat
  | [] => []
  | (k, v) :: rest => writeUtf8 k ++ (amf0AnyWrite v ++ amf0PropsWrite rest)

end

/-! ### Sizes (`RtmpAmf0Size*`, `RtmpAmf0Object.Size`, `RtmpAmf0EcmaArray.Size`) -/

mutual

/-- `RtmpAmf0Any.Size` dispatch by marker; `RtmpAmf0Object.Size` and
`RtmpAmf0EcmaArray.Size` both return 0 when the hashtable size is `<= 0`
(that is, when there are no properties). -/
def amf0AnySize : Amf0Any → Nat
  | .num _ => 1 + 8
  | .boolean _ => 1 + 1
  | .str s => 1 + (2 + s.length)
  | .obj props =>
      if amf0PropsSize props = 0 then 0 else amf0PropsSize props + 1 + 3
  | .ecma _ props =>
      if amf0PropsSize props = 0 then 0 else amf0PropsSize props + 1 + 4 + 3
  | .null => 1
  | .undef => 1
  | .objEnd => 2 + 1

/-- `RtmpAmf0UnSortedHashtable.Size` without the empty-table early return:
the sum of `RtmpAmf0SizeUtf8(name) + value.Size()`. -/
def amf0PropsSize : List (List Nat × Amf0Any) → Nat
  | [] => 0
  | (k, v) :: rest => (2 + k.length) + amf0AnySize v + amf0PropsSize rest

end

/-! ### Decoding

The readers consume a `List Nat` and return the value plus the unread rest.
`Requires(n)` failing is `Err.amf0Decode` exactly as in the source.  The
object/ecma property loops recurse on a fuel parameter. -/

/-- `RtmpAmf0Codec.ReadUtf8`: 16-bit big-endian length, then that many bytes;
a zero length yields the empty string without touching the rest. -/
def codecReadUtf8 : List Nat → Except Err (List Nat × List Nat)
  | b0 :: b1 :: rest =>
    if 256 * b0 + b1 = 0 then .ok ([], rest)
    else if rest.length < 256 * b0 + b1 then .error .amf0Decode
    else .ok (rest.take (256 * b0 + b1), rest.drop (256 * b0 + b1))
  | _ => .error .amf0Decode

/-- `RtmpAmf0Codec.ReadString`: 0x02 marker then utf8. -/
def codecReadString (s : List Nat) : Except Err (List Nat × List Nat) :=
  match s with
  | m :: rest => if m = 2 then codecReadUtf8 rest else .error .amf0Decode
  | [] => .error .amf0Decode

/-- `RtmpAmf0Codec.ReadNumber`: 0x00 marker then 8 bytes big-endian
(`math.Float64frombits`; we keep the bit pattern). -/
def codecReadNumber (s : List Nat) : Except Err (Nat × List Nat) :=
  match s with
  | m :: rest =>
    if m = 0 then
      if rest.length < 8 then .error .amf0Decode
      else .ok (beVal (rest.take 8), rest.drop 8)
    else .error .amf0Decode
  | [] => .error .amf0Decode

/-- `RtmpAmf0Codec.ReadBoolean`: 0x01 marker then one byte, false iff zero. -/
def codecReadBoolean (s : List Nat) : Except Err (Bool × List Nat) :=
  match s with
  | m :: rest =>
    if m = 1 then
      match rest with
      | b :: rest2 => .ok (decide (b ≠ 0), rest2)
      | [] => .error .amf0Decode
    else .error .amf0Decode
  | [] => .error .amf0Decode

mutual

/-- `RtmpAmf0Any.Read`: peek the marker byte (`ReadByte` then `Next(-1)`)
and dispatch; unsupported markers are `ERROR_RTMP_AMF0_INVALID`.  The Object
and EcmaArray cases inline `RtmpAmf0Object.Read` / `RtmpAmf0EcmaArray.Read`
(marker re-check, count field, then the property loop) so that the mutual
recursion is structural on the fuel; the standalone wrappers
`amf0ObjectRead` / `amf0EcmaRead` below are proved to coincide. -/
def amf0AnyRead (fuel : Nat) (s : List Nat) : Except Err (Amf0Any × List Nat) :=
  match fuel, s with
  | 0, _ => .error .outOfFuel
  | _ + 1, [] => .error .amf0Decode
  | fuel + 1, marker :: rest =>
    if marker = 2 then
      match codecReadString (marker :: rest) with
      | .ok (v, s1) => .ok (.str v, s1)
      | .error e => .error e
    else if marker = 1 then
      match codecReadBoolean (marker :: rest) with
      | .ok (v, s1) => .ok (.boolean v, s1)
      | .error e => .error e
    else if marker = 0 then
      match codecReadNumber (marker :: rest) with
      | .ok (v, s1) => .ok (.num v, s1)
      | .error e => .error e
    else if marker = 5 then .ok (.null, rest)
    else if marker = 6 then .ok (.undef, rest)
    else if marker = 9 then .ok (.objEnd, rest)
    else if marker = 3 then
      match amf0ReadProps fuel rest [] with
      | .ok (props, s1) => .ok (.obj props, s1)
      | .error e => .error e
    else if marker = 8 then
      if rest.length < 4 then .error .amf0Decode
      else
        match amf0ReadProps fuel (rest.drop 4) [] with
        | .ok (props, s1) =>
            .ok (.ecma (if props.isEmpty then beVal (rest.take 4)
                        else props.length) props, s1)
        | .error e => .error e
    else .error .amf0Invalid

/-- The shared property loop of `RtmpAmf0Object.Read` and
`RtmpAmf0EcmaArray.Read`: while the stream is not `Empty()`, read a utf8 name
and an any value; break when the name is empty OR the value `IsNil()` OR the
value `IsObjectEof()`; otherwise `Set` and continue. -/
def amf0ReadProps (fuel : Nat) (s : List Nat)
    (acc : List (List Nat × Amf0Any)) :
    Except Err (List (List Nat × Amf0Any) × List Nat) :=
  match fuel with
  | 0 => .error .outOfFuel
  | fuel + 1 =>
    if s.length = 0 then .ok (acc, s)
    else
      match codecReadUtf8 s with
      | .error e => .error e
      | .ok (name, s1) =>
        match amf0AnyRead fuel s1 with
        | .error e => .error e
        | .ok (v, s2) =>
          if name.isEmpty || amf0IsNil v || amf0IsObjectEof v then .ok (acc, s2)
          else amf0ReadProps fuel s2 (hashSet acc name v)

end

/-- `RtmpAmf0Object.Read` (also `RtmpAmf0Codec.ReadObject`): 0x03 marker then
the property loop starting from an empty object. -/
def amf0ObjectRead (fuel : Nat) (s : List Nat) :
    Except Err (List (List Nat × Amf0Any) × List Nat) :=
  match s with
  | [] => .error .amf0Decode
  | m :: rest => if m = 3 then amf0ReadProps fuel rest [] else .error .amf0Decode

/-- `RtmpAmf0EcmaArray.Read`: 0x08 marker, 32-bit count, then the property
loop; every `Set` overwrites `count` with the property count, so the wire
count survives only when no property was added. -/
def amf0EcmaRead (fuel : Nat) (s : List Nat) :
    Except Err (Nat × List (List Nat × Amf0Any) × List Nat) :=
  match s with
  | [] => .error .amf0Decode
  | m :: rest =>
    if m = 8 then
      if rest.length < 4 then .error .amf0Decode
      else
        match amf0ReadProps fuel (rest.drop 4) [] with
        | .ok (props, s1) =>
            .ok (if props.isEmpty then beVal (rest.take 4) else props.length,
                 props, s1)
        | .error e => .error e
    else .error .amf0Decode

/-! ### Wellformedness

`goodAny` captures the AMF0 values on which the codec can round-trip: Go
typing bounds (`float64` bit patterns below `2^64`, string and name lengths
below the 16-bit length prefix, the `uint32` ecma count in sync with the
property count as `Set` maintains it), property names nonempty and distinct
(as `Set` produces), and no property value whose decoded `Value` is `nil`. -/

mutual

def goodAny : Amf0Any → Bool
  | .num bits => decide (bits < 18446744073709551616)
  | .boolean _ => true
  | .str s => decide (s.length < 65536)
  | .obj props => goodProps props
  | .ecma count props =>
      (count == props.length && decide (count < 4294967296)) && goodProps props
  | .null => true
  | .undef => true
  | .objEnd => false

def goodProps : List (List Nat × Amf0Any) → Bool
  | [] => true
  | (k, v) :: rest =>
      ((!k.isEmpty && decide (k.length < 65536)) &&
       (!amf0IsNil v && goodAny v)) &&
      (rest.all (fun p => !(p.1 == k)) && goodProps rest)

end

mutual

/-- Fuel sufficient for `amf0AnyRead` on the encoding of a value. -/
def needA : Amf0Any → Nat
  | .obj props => needP props + 1
  | .ecma _ props => needP props + 1
  | .num _ => 1
  | .boolean _ => 1
  | .str _ => 1
  | .null => 1
  | .undef => 1
  | .objEnd => 1

def needP : List (List Nat × Amf0Any) → Nat
  | [] => 2
  | (_, v) :: rest => max (needA v) (needP rest) + 1

end

/-! ### Round-trip helper lemmas -/

@[simp] theorem writeUtf8_length (s : List Nat) :
    (writeUtf8 s).length = 2 + s.length := by
  simp [writeUtf8]

theorem natToBytes_two (n : Nat) :
    natToBytes 2 n = [n / 256 % 256, n % 256] := by
  simp [natToBytes]

theorem codecReadUtf8_writeUtf8 (k t : List Nat) (h : k.length < 65536) :
    codecReadUtf8 (writeUtf8 k ++ t) = .ok (k, t) := by
  have hn : 256 * (k.length / 256 % 256) + k.length % 256 = k.length := by
    omega
  have hshape : writeUtf8 k ++ t
      = (k.length / 256 % 256) :: (k.length % 256) :: (k ++ t) := by
    simp [writeUtf8, natToBytes_two]
  rw [hshape]
  by_cases h0 : k.length = 0
  · have hk : k = [] := List.length_eq_zero.mp h0
    subst hk
    simp [codecReadUtf8]
  · have hlen : ¬ (k ++ t).length < 256 * (k.length / 256 % 256) + k.length % 256 := by
      simp only [List.length_append, hn]; omega
    simp [codecReadUtf8, hn, h0, hlen, List.take_left, List.drop_left]

theorem amf0AnyRead_objEnd (f : Nat) (t : List Nat) (hf : 1 ≤ f) :
    amf0AnyRead f (9 :: t) = .ok (.objEnd, t) := by
  match f, hf with
  | f + 1, _ => simp [amf0AnyRead]

theorem hashSet_append (acc : List (List Nat × Amf0Any)) (k : List Nat)
    (v : Amf0Any) (h : ∀ q ∈ acc, ¬ q.1 = k) :
    hashSet acc k v = acc ++ [(k, v)] := by
  have hany : acc.any (fun p => p.1 == k) = false := by
    simp only [List.any_eq_false]
    intro q hq
    simpa using h q hq
  simp [hashSet, hany]

theorem isObjectEof_of_not_isNil (v : Amf0Any) (h : amf0IsNil v = false) :
    amf0IsObjectEof v = false := by
  cases v <;> simp_all [amf0IsNil, amf0IsObjectEof]

mutual

/-- Reading back the bytes written for a wellformed value, with enough fuel,
reproduces the value and leaves the trailing bytes untouched. -/
theorem amf0AnyRead_writeRound (v : Amf0Any) (fuel : Nat)
    (hg : goodAny v = true) (hf : needA v ≤ fuel) (t : List Nat) :
    amf0AnyRead fuel (amf0AnyWrite v ++ t) = .ok (v, t) := by
  cases v with
  | num bits =>
    cases fuel with
    | zero => simp [needA] at hf
    | succ f =>
      have hbits : bits < 18446744073709551616 := by
        simpa [goodAny] using hg
      have hlen : ¬ (natToBytes 8 bits ++ t).length < 8 := by
        simp [List.length_append]
      have htake : (natToBytes 8 bits ++ t).take 8 = natToBytes 8 bits :=
        List.take_left' (natToBytes_length 8 bits)
      have hdrop : (natToBytes 8 bits ++ t).drop 8 = t :=
        List.drop_left' (natToBytes_length 8 bits)
      have hbe : beVal (natToBytes 8 bits) = bits :=
        beVal_natToBytes_self 8 bits hbits
      simp [amf0AnyWrite, amf0AnyRead, codecReadNumber, hlen, htake, hdrop, hbe]
  | boolean b =>
    cases fuel with
    | zero => simp [needA] at hf
    | succ f =>
      cases b <;> simp [amf0AnyWrite, amf0AnyRead, codecReadBoolean]
  | str s =>
    cases fuel with
    | zero => simp [needA] at hf
    | succ f =>
      have h65536 : s.length < 65536 := by simpa [goodAny] using hg
      have hutf := codecReadUtf8_writeUtf8 s t h65536
      simp [amf0AnyWrite, amf0AnyRead, codecReadString, hutf]
  | obj props =>
    cases fuel with
    | zero => simp [needA] at hf
    | succ f =>
      have hgp : goodProps props = true := by simpa [goodAny] using hg
      have hfp : needP props ≤ f := by
        simp [needA] at hf; omega
      have hrec := amf0ReadProps_writeRound props [] f hgp
        (by intro p _ q hq; simp at hq) hfp t
      simp [amf0AnyWrite, amf0AnyRead, List.append_assoc, hrec]
  | ecma count props =>
    cases fuel with
    | zero => simp [needA] at hf
    | succ f =>
      have hgp : goodProps props = true := by
        have := hg
        simp [goodAny] at this
        exact this.2
      have hcount : count = props.length ∧ count < 4294967296 := by
        have := hg
        simp [goodAny] at this
        exact this.1
      have hfp : needP props ≤ f := by
        simp [needA] at hf; omega
      have hrec := amf0ReadProps_writeRound props [] f hgp
        (by intro p _ q hq; simp at hq) hfp t
      have hlen4 : ¬ (natToBytes 4 count
          ++ (amf0PropsWrite props ++ (objectEOFBytes ++ t))).length < 4 := by
        simp [List.length_append]
      have htake : (natToBytes 4 count
          ++ (amf0PropsWrite props ++ (objectEOFBytes ++ t))).take 4
          = natToBytes 4 count :=
        List.take_left' (natToBytes_length 4 count)
      have hdrop : (natToBytes 4 count
          ++ (amf0PropsWrite props ++ (objectEOFBytes ++ t))).drop 4
          = amf0PropsWrite props ++ (objectEOFBytes ++ t) :=
        List.drop_left' (natToBytes_length 4 count)
      cases props with
      | nil =>
        have hc0 : count = 0 := by simpa using hcount.1
        subst hc0
        simp only [amf0AnyWrite, List.cons_append, List.append_assoc]
        simp [amf0AnyRead, hlen4, htake, hdrop, hrec,
          beVal_natToBytes_self 4 0 (by norm_num)]
      | cons p rest =>
        simp only [amf0AnyWrite, List.cons_append, List.append_assoc]
        simp [amf0AnyRead, hlen4, htake, hdrop, hrec, hcount.1]
  | null =>
    cases fuel with
    | zero => simp [needA] at hf
    | succ f => simp [amf0AnyWrite, amf0AnyRead]
  | undef =>
    cases fuel with
    | zero => simp [needA] at hf
    | succ f => simp [amf0AnyWrite, amf0AnyRead]
  | objEnd => simp [goodAny] at hg

/-- The property loop over the encoding of a wellformed property list,
followed by the object-end sentinel, accumulates exactly those properties in
order. -/
theorem amf0ReadProps_writeRound (props : List (List Nat × Amf0Any))
    (acc : List (List Nat × Amf0Any)) (fuel : Nat)
    (hg : goodProps props = true)
    (hd : ∀ p ∈ props, ∀ q ∈ acc, ¬ q.1 = p.1)
    (hf : needP props ≤ fuel) (t : List Nat) :
    amf0ReadProps fuel (amf0PropsWrite props ++ (objectEOFBytes ++ t)) acc
      = .ok (acc ++ props, t) := by
  cases props with
  | nil =>
    cases fuel with
    | zero => simp [needP] at hf
    | succ f =>
      have hf1 : 1 ≤ f := by simp [needP] at hf; omega
      have h9 := amf0AnyRead_objEnd f t hf1
      simp [amf0PropsWrite, objectEOFBytes, amf0ReadProps, codecReadUtf8, h9,
        amf0IsNil]
  | cons p rest =>
    obtain ⟨k, v⟩ := p
    cases fuel with
    | zero => simp [needP] at hf
    | succ f =>
      have hg' := hg
      simp only [goodProps, Bool.and_eq_true, Bool.not_eq_true',
        decide_eq_true_eq, List.all_eq_true] at hg'
      obtain ⟨⟨⟨hk0, hklen⟩, hvnil, hvg⟩, hnodup, hgrest⟩ := hg'
      have hfa : needA v ≤ f := by
        simp [needP] at hf
        omega
      have hfr : needP rest ≤ f := by
        simp [needP] at hf
        omega
      have hutf := codecReadUtf8_writeUtf8 k
        (amf0AnyWrite v ++ (amf0PropsWrite rest ++ (objectEOFBytes ++ t))) hklen
      have hany := amf0AnyRead_writeRound v f hvg hfa
        (amf0PropsWrite rest ++ (objectEOFBytes ++ t))
      have heof := isObjectEof_of_not_isNil v hvnil
      have hset : hashSet acc k v = acc ++ [(k, v)] := by
        refine hashSet_append acc k v ?_
        intro q hq
        exact hd (k, v) (List.mem_cons_self _ _) q hq
      have hd' : ∀ p ∈ rest, ∀ q ∈ acc ++ [(k, v)], ¬ q.1 = p.1 := by
        intro p hp q hq
        rcases List.mem_append.mp hq with h | h
        · exact hd p (List.mem_cons_of_mem _ hp) q h
        · have hqkv : q = (k, v) := by simpa using h
          subst hqkv
          have hbeq := hnodup p hp
          simp only [beq_eq_false_iff_ne, ne_eq] at hbeq
          exact fun hEq => hbeq hEq.symm
      have hrec := amf0ReadProps_writeRound rest (acc ++ [(k, v)]) f hgrest hd'
        hfr t
      have hne : ¬ ((writeUtf8 k
          ++ (amf0AnyWrite v ++ (amf0PropsWrite rest ++ (objectEOFBytes ++ t)))).length
          = 0) := by
        simp [List.length_append]
      have hkemp : k.isEmpty = false := hk0
      simp only [amf0PropsWrite, List.append_assoc]
      simp [amf0ReadProps, hne, hutf, hany, hkemp, hvnil, heof, hset, hrec]

end

mutual

/-- The fuel bound is dominated by the encoding length. -/
theorem needA_le_writeLength (v : Amf0Any) :
    needA v ≤ (amf0AnyWrite v).length := by
  cases v with
  | obj props =>
    have h := needP_le_writeLength props
    simp only [needA, amf0AnyWrite, List.length_cons, List.length_append,
      objectEOFBytes, List.length_cons, List.length_nil]
    omega
  | ecma count props =>
    have h := needP_le_writeLength props
    simp only [needA, amf0AnyWrite, List.length_cons, List.length_append,
      objectEOFBytes, natToBytes_length, List.length_nil]
    omega
  | num bits => simp [needA, amf0AnyWrite]
  | boolean b => simp [needA, amf0AnyWrite]
  | str s => simp [needA, amf0AnyWrite]
  | null => simp [needA, amf0AnyWrite]
  | undef => simp [needA, amf0AnyWrite]
  | objEnd => simp [needA, amf0AnyWrite, objectEOFBytes]

theorem needP_le_writeLength (props : List (List Nat × Amf0Any)) :
    needP props ≤ (amf0PropsWrite props).length + 3 := by
  cases props with
  | nil => simp [needP, amf0PropsWrite]
  | cons p rest =>
    obtain ⟨k, v⟩ := p
    have h1 := needA_le_writeLength v
    have h2 := needP_le_writeLength rest
    simp only [needP, amf0PropsWrite, List.length_append, writeUtf8_length]
    omega

end

/-- Decoding a byte string: `RtmpAmf0Any.Read` with fuel ample for the whole
input (the fuel is an artefact of the embedding; `length + 1` exceeds the
iteration count of every property loop over the input). -/
def amf0DecodeValue (s : List Nat) : Except Err (Amf0Any × List Nat) :=
  amf0AnyRead (s.length + 1) s

mutual

/-- Values in which every Object/EcmaArray (the value itself or nested) has at
least one property — exactly the values whose `Size()` never takes the
empty-hashtable early return. -/
def sizedAny : Amf0Any → Bool
  | .obj props => !props.isEmpty && sizedProps props
  | .ecma _ props => !props.isEmpty && sizedProps props
  | .num _ => true
  | .boolean _ => true
  | .str _ => true
  | .null => true
  | .undef => true
  | .objEnd => true

def sizedProps : List (List Nat × Amf0Any) → Bool
  | [] => true
  | (_, v) :: rest => sizedAny v && sizedProps rest

end

theorem amf0PropsSize_cons_ne_zero (k : List Nat) (v : Amf0Any)
    (rest : List (List Nat × Amf0Any)) :
    amf0PropsSize ((k, v) :: rest) ≠ 0 := by
  simp only [amf0PropsSize]
  omega

mutual

/-- For values whose objects are all nonempty, the encoding has exactly
`Size()` bytes. -/
theorem amf0AnyWrite_length_eq_size (v : Amf0Any) (h : sizedAny v = true) :
    (amf0AnyWrite v).length = amf0AnySize v := by
  cases v with
  | obj props =>
    cases props with
    | nil => simp [sizedAny] at h
    | cons p rest =>
      obtain ⟨k, vv⟩ := p
      have hp : sizedProps ((k, vv) :: rest) = true := by
        simpa [sizedAny] using h
      have hlen := amf0PropsWrite_length_eq_size ((k, vv) :: rest) hp
      have hne := amf0PropsSize_cons_ne_zero k vv rest
      simp only [amf0AnyWrite, amf0AnySize, List.length_cons,
        List.length_append, objectEOFBytes, List.length_nil, hlen, if_neg hne]
  | ecma count props =>
    cases props with
    | nil => simp [sizedAny] at h
    | cons p rest =>
      obtain ⟨k, vv⟩ := p
      have hp : sizedProps ((k, vv) :: rest) = true := by
        simpa [sizedAny] using h
      have hlen := amf0PropsWrite_length_eq_size ((k, vv) :: rest) hp
      have hne := amf0PropsSize_cons_ne_zero k vv rest
      simp only [amf0AnyWrite, amf0AnySize, List.length_cons,
        List.length_append, objectEOFBytes, List.length_nil,
        natToBytes_length, hlen, if_neg hne]
      omega
  | num bits => simp [amf0AnyWrite, amf0AnySize]
  | boolean b => simp [amf0AnyWrite, amf0AnySize]
  | str s => simp [amf0AnyWrite, amf0AnySize]; omega
  | null => simp [amf0AnyWrite, amf0AnySize]
  | undef => simp [amf0AnyWrite, amf0AnySize]
  | objEnd => simp [amf0AnyWrite, amf0AnySize, objectEOFBytes]

theorem amf0PropsWrite_length_eq_size (props : List (List Nat × Amf0Any))
    (h : sizedProps props = true) :
    (amf0PropsWrite props).length = amf0PropsSize props := by
  cases props with
  | nil => simp [amf0PropsWrite, amf0PropsSize]
  | cons p rest =>
    obtain ⟨k, v⟩ := p
    have hv : sizedAny v = true ∧ sizedProps rest = true := by
      simpa [sizedProps] using h
    have h1 := amf0AnyWrite_length_eq_size v hv.1
    have h2 := amf0PropsWrite_length_eq_size rest hv.2
    simp only [amf0PropsWrite, amf0PropsSize, List.length_append,
      writeUtf8_length, h1, h2]
    omega

end

/-! ## Claim C1: AMF0 encode/decode round trip -/

/-- **C1** (counterexample).  The claim fails as stated: the Object
`{"a": Null}` is built solely from the supported markers, yet decoding its
encoding yields the empty Object (the property loop breaks on the `IsNil()`
value before `Set`), with the trailing object-end sentinel left unread. -/
theorem claim_C1_counterexample :
    amf0DecodeValue (amf0AnyWrite (.obj [([97], .null)]))
        = .ok (.obj [], [0, 0, 9])
      ∧ Amf0Any.obj [] ≠ Amf0Any.obj [([97], Amf0Any.null)] :=
  ⟨rfl, by simp⟩

/-- **C1** (amended).  For every AMF0 value built from the supported markers
that is wellformed for the codec — property names nonempty, shorter than
2^16 and pairwise distinct, no property value carrying a nil `Value`
(Null/Undefined/ObjectEnd), string lengths below 2^16, number bit patterns
below 2^64, and each EcmaArray count equal to its property count — reading
back the bytes produced by writing the value yields a structurally equal
value; in particular Object/EcmaArray property insertion order is preserved
(the decoded property list is the written one). -/
theorem claim_C1_roundtrip (v : Amf0Any) (hg : goodAny v = true) :
    amf0DecodeValue (amf0AnyWrite v) = .ok (v, []) := by
  have h := amf0AnyRead_writeRound v ((amf0AnyWrite v).length + 1) hg
    (le_trans (needA_le_writeLength v) (Nat.le_succ _)) []
  simpa [amf0DecodeValue] using h

/-- **C1** (witness): the round trip evaluated on a concrete two-property
object (number 1.0 and string "c"). -/
theorem claim_C1_roundtrip_witness :
    goodAny (.obj [([97], .num 4607182418800017408), ([98], .str [99])]) = true
      ∧ amf0DecodeValue (amf0AnyWrite
          (.obj [([97], .num 4607182418800017408), ([98], .str [99])]))
        = .ok (.obj [([97], .num 4607182418800017408), ([98], .str [99])], []) :=
  ⟨rfl, claim_C1_roundtrip _ rfl⟩

/-! ## Claim C6: object property-loop termination -/

/-- **C6** (counterexample).  The claim fails as stated: on an object stream
whose first property has a zero-length name paired with a Number value (not
the ObjectEnd sentinel), `RtmpAmf0Object.Read` ends the object — it returns
with zero properties, leaving the bytes after the number unread — because the
break condition is a disjunction (`len(name) <= 0 || IsNil || IsObjectEof`),
not the claimed conjunction. -/
theorem claim_C6_counterexample :
    amf0ObjectRead 9 (3 :: (writeUtf8 [] ++ (amf0AnyWrite (.num 64) ++ [1, 1])))
        = .ok ([], [1, 1])
      ∧ amf0IsObjectEof (.num 64) = false :=
  ⟨rfl, rfl⟩

/-- **C6** (amended).  `read_object` ends its property loop as soon as the
property name is empty OR the value reads back with a nil `Value`
(Null/Undefined/ObjectEnd markers) OR the value is the ObjectEnd sentinel; in
particular a zero-length name paired with ANY readable value — ObjectEnd or
not — ends the object with the properties collected so far. -/
theorem claim_C6_empty_name_ends (v : Amf0Any) (t : List Nat) (fuel : Nat)
    (hg : goodAny v = true) (hf : needA v + 1 ≤ fuel) :
    amf0ObjectRead fuel (3 :: (writeUtf8 [] ++ (amf0AnyWrite v ++ t)))
      = .ok ([], t) := by
  cases fuel with
  | zero => omega
  | succ f =>
    have hany := amf0AnyRead_writeRound v f hg (by omega) t
    simp [amf0ObjectRead, amf0ReadProps, writeUtf8, natToBytes, codecReadUtf8,
      hany]

/-- **C6** (witness): the amended statement evaluated on the Number 64
following an empty name. -/
theorem claim_C6_empty_name_ends_witness :
    goodAny (.num 64) = true ∧ needA (.num 64) + 1 ≤ 9
      ∧ amf0ObjectRead 9
          (3 :: (writeUtf8 [] ++ (amf0AnyWrite (.num 64) ++ [7, 7])))
        = .ok ([], [7, 7]) :=
  ⟨rfl, by decide, claim_C6_empty_name_ends (.num 64) [7, 7] 9 rfl (by decide)⟩

/-! ## Claim C7: Size() versus emitted bytes -/

/-- **C7** (counterexample).  The claim fails for an Object with zero
properties: `RtmpAmf0Object.Size` takes the empty-hashtable early return and
reports 0, while `RtmpAmf0Object.Write` still emits the marker plus the
object-end sentinel — 4 bytes. -/
theorem claim_C7_counterexample :
    (amf0AnyWrite (.obj [])).length = 4 ∧ amf0AnySize (.obj []) = 0 :=
  ⟨rfl, rfl⟩

/-- **C7** (amended).  Encoding writes exactly `Size()` bytes — number 9,
boolean 2, null/undefined 1, string `3 + len`, object-end 3, object
`1 + Σ(utf8 + value) + 3`, ecma-array `1 + 4 + Σ(utf8 + value) + 3` —
provided every Object/EcmaArray in the value has at least one property; an
empty Object reports `Size() = 0` but writes 4 bytes (and an empty EcmaArray
reports 0 but writes 8). -/
theorem claim_C7_write_length (v : Amf0Any) (h : sizedAny v = true) :
    (amf0AnyWrite v).length = amf0AnySize v :=
  amf0AnyWrite_length_eq_size v h

/-- **C7** (witness): sizes evaluated on a one-property object holding a
boolean. -/
theorem claim_C7_write_length_witness :
    sizedAny (.obj [([107], .boolean true)]) = true
      ∧ (amf0AnyWrite (.obj [([107], .boolean true)])).length
          = amf0AnySize (.obj [([107], .boolean true)]) :=
  ⟨rfl, claim_C7_write_length _ rfl⟩

/-! ## Chunk codec (`src/rtmp/protocol.go`, first draft)

The inbound byte stream is one `List Nat`; `EnsureBufferBytes n` is the check
that `n` bytes remain (fewer means the transport eventually reports EOF/error,
`Err.ioError`).  On an error return the Go code may have left partial
mutations behind; the session terminates there, so the model returns only the
error. -/

/-- Little-endian 4-byte composition (`ReadUInt32Le`). -/
def leVal (bs : List Nat) : Nat := beVal bs.reverse

/-- Modelled from the spec: the chunk fmt selector constant `RTMP_FMT_TYPE0`
(its defining file is not under `src/`; §4.3 of the spec fixes fmt 0..3). -/
def RTMP_FMT_TYPE0 : Nat := 0

/-- Modelled from the spec: `RTMP_FMT_TYPE1` (see `RTMP_FMT_TYPE0`). -/
def RTMP_FMT_TYPE1 : Nat := 1

/-- Modelled from the spec: `RTMP_FMT_TYPE2` (see `RTMP_FMT_TYPE0`). -/
def RTMP_FMT_TYPE2 : Nat := 2

/-- Modelled from the spec: the extended-timestamp sentinel
`RTMP_EXTENDED_TIMESTAMP = 0x00FFFFFF` (its defining file is not under
`src/`; the spec fixes it in §3 and §4.3). -/
def RTMP_EXTENDED_TIMESTAMP : Nat := 16777215

/-- Modelled from the spec: the default chunk size 128
(`RTMP_DEFAULT_CHUNK_SIZE`, defined in a file not under `src/`; spec §4.3). -/
def RTMP_DEFAULT_CHUNK_SIZE : Nat := 128

/-- `RtmpMessageHeader` (src/unnamed/part_002): byte / uint32 / uint32 /
uint32 / uint64 fields. -/
structure MessageHeader where
  messageType    : Nat := 0
  payloadLength  : Nat := 0
  timestampDelta : Nat := 0
  streamId       : Nat := 0
  timestamp      : Nat := 0
  deriving DecidableEq

/-- `RtmpMessage`: header (set by `read_message_header` before any use),
payload (`nil` until allocated), received cursor. -/
structure RtmpMsg where
  header : MessageHeader := {}
  payload : Option (List Nat) := none
  receivedPayloadLength : Nat := 0
  deriving DecidableEq

/-- `RtmpChunkStream` (the draft's `FMT` field is never assigned in
`protocol.go` and is omitted). -/
structure ChunkStream where
  cid : Nat := 0
  header : MessageHeader := {}
  extendedTimestamp : Bool := false
  msg : Option RtmpMsg := none
  msgCount : Nat := 0
  deriving DecidableEq

/-- `RtmpAckWindowSize`: uint32 window, uint64 acked counter. -/
structure AckWindowSize where
  ack_window_size : Nat := 0
  acked_size : Nat := 0
  deriving DecidableEq

/-- `RtmpAckWindowSize.ShouldAckRead`: false while the window is unset
(uint32 `<= 0` means zero); otherwise the uint64 difference
`n - acked_size` (wrapping) must exceed the window. -/
def shouldAckRead (w : AckWindowSize) (n : Nat) : Bool :=
  if w.ack_window_size = 0 then false
  else decide (w.ack_window_size < (n + 2 ^ 64 - w.acked_size % 2 ^ 64) % 2 ^ 64)

/-- The per-connection protocol state used by the receive path
(`rtmpProtocol`): chunk-stream table, buffered-plus-future input bytes, the
inbound chunk size, the ACK window, and the socket's received-byte counter
(`Socket.recv_bytes`; its granularity of increase is abstracted — only
`on_recv_message` reads it). -/
structure ProtoState where
  chunkStreams : List (Nat × ChunkStream) := []
  buffer : List Nat := []
  inChunkSize : Nat := RTMP_DEFAULT_CHUNK_SIZE
  inAckSize : AckWindowSize := {}
  recvBytes : Nat := 0
  deriving DecidableEq

/-- Go map assignment `chunkStreams[cid] = ch` on the association-list
model: replace in place when the key is present, append otherwise. -/
def setCS (m : List (Nat × ChunkStream)) (cid : Nat) (ch : ChunkStream) :
    List (Nat × ChunkStream) :=
  if m.any (fun p => decide (p.1 = cid)) then
    m.map (fun p => if p.1 = cid then (cid, ch) else p)
  else m ++ [(cid, ch)]

/-- `read_basic_header`: fmt from bits 7..6, cid from bits 5..0 with the
1- and 2-byte extensions for cid 0 and 1. -/
def readBasicHeader (buf : List Nat) : Except Err (Nat × Nat × Nat × List Nat) :=
  match buf with
  | [] => .error .ioError
  | b :: rest =>
    let cid := b % 64
    let fmt := b / 64 % 4
    if cid = 0 then
      match rest with
      | [] => .error .ioError
      | b1 :: rest1 => .ok (fmt, 64 + b1, 2, rest1)
    else if cid = 1 then
      match rest with
      | b1 :: b2 :: rest2 => .ok (fmt, 64 + b1 + 256 * b2, 3, rest2)
      | _ => .error .ioError
    else .ok (fmt, cid, 1, rest)

/-- `protocol.go` lines 320–339: the extended-timestamp block run when the
sticky flag is set.  `mh_size += 4`; ensure 4 bytes; peek them as a big-endian
u32 (`TopUInt32` — its definition is not under `src/`; modelled from the
spec's `peek_u32_be`, which §9 identifies with it); if the accumulated
timestamp already exceeds the sentinel and differs from the peeked value, the
field is judged absent: `mh_size -= 4` and the bytes stay in the buffer;
otherwise the timestamp becomes the peeked value and `Next(4)` consumes the
bytes. -/
def readExtendedTimestamp (ts : Nat) (mhSize : Nat) (buf : List Nat) :
    Except Err (Nat × Nat × List Nat) :=
  if buf.length < 4 then .error .ioError
  else
    if RTMP_EXTENDED_TIMESTAMP < ts ∧ ts ≠ beVal (buf.take 4) then
      .ok (ts, mhSize + 4 - 4, buf)
    else
      .ok (beVal (buf.take 4), mhSize + 4, buf.drop 4)

/-- `[11, 7, 3, 0][fmt]` (`read_basic_header` only produces fmt < 4). -/
def mhSizeOf (fmt : Nat) : Nat := [11, 7, 3, 0].getD fmt 0

/-- The body of `read_message_header` after the two ChunkStart guards:
message creation, field parse by fmt, extended timestamp, the int32
payload-length check, the header copy into the message, and the msg-count
increment. -/
def readMessageHeaderBody (ch : ChunkStream) (fmt : Nat) (buf : List Nat) :
    Except Err (Nat × ChunkStream × List Nat) :=
  let isFreshPacket := ch.msg.isNone
  let msg0 := ch.msg.getD {}
  let mhSize := mhSizeOf fmt
  if buf.length < mhSize then .error .ioError
  else
    let parsed : Except Err (MessageHeader × Bool) :=
      if fmt ≤ RTMP_FMT_TYPE2 then
        let delta := beVal (buf.take 3)
        let ext := decide (RTMP_EXTENDED_TIMESTAMP ≤ delta)
        let ts : Nat :=
          if ext then RTMP_EXTENDED_TIMESTAMP
          else if fmt = RTMP_FMT_TYPE0 then delta
          else (ch.header.timestamp + delta) % 2 ^ 64
        if fmt ≤ RTMP_FMT_TYPE1 then
          let plen := beVal ((buf.drop 3).take 3)
          if msg0.payload.isSome ∧ (msg0.payload.getD []).length ≠ plen then
            .error .packetSize
          else
            let mtype := (buf.drop 6).headD 0
            let sid := if fmt = RTMP_FMT_TYPE0 then leVal ((buf.drop 7).take 4)
                       else ch.header.streamId
            .ok ({ messageType := mtype, payloadLength := plen,
                   timestampDelta := delta, streamId := sid,
                   timestamp := ts }, ext)
        else
          .ok ({ ch.header with timestampDelta := delta, timestamp := ts }, ext)
      else
        let ts := if isFreshPacket ∧ ch.extendedTimestamp = false
                  then (ch.header.timestamp + ch.header.timestampDelta) % 2 ^ 64
                  else ch.header.timestamp
        .ok ({ ch.header with timestamp := ts }, ch.extendedTimestamp)
    match parsed with
    | .error e => .error e
    | .ok (hdr1, ext1) =>
      let buf1 := buf.drop mhSize
      let extRes : Except Err (Nat × Nat × List Nat) :=
        if ext1 then readExtendedTimestamp hdr1.timestamp mhSize buf1
        else .ok (hdr1.timestamp, mhSize, buf1)
      match extRes with
      | .error e => .error e
      | .ok (ts2, mh2, buf2) =>
        let hdr2 := { hdr1 with timestamp := ts2 }
        if 2 ^ 31 ≤ hdr2.payloadLength then .error .invalidMsgSize
        else
          let msg1 := { msg0 with header := hdr2 }
          let ch1 := { ch with header := hdr2, extendedTimestamp := ext1, msg := some msg1, msgCount := ch.msgCount + 1 }
          .ok (mh2, ch1, buf2)

/-- `read_message_header`: the two fmt/CID validity guards
(ChunkStart), then the body. -/
def readMessageHeader (ch : ChunkStream) (fmt : Nat) (buf : List Nat) :
    Except Err (Nat × ChunkStream × List Nat) :=
  if ch.msgCount = 0 ∧ fmt ≠ RTMP_FMT_TYPE0 then .error .chunkStart
  else if ch.msg.isSome ∧ fmt = RTMP_FMT_TYPE0 then .error .chunkStart
  else readMessageHeaderBody ch fmt buf

/-- `read_message_payload`: hand out empty messages at once; otherwise copy
`min(payload_length - received, in_chunk_size)` bytes into the (lazily
allocated) payload and, when the message is complete, clear the per-CID slot
and return it.  `Err.panicked` marks the Go runtime panics (nil dereference /
negative slice bounds) that the state invariant excludes. -/
def readMessagePayload (inChunkSize : Nat) (ch : ChunkStream) (buf : List Nat) :
    Except Err (ChunkStream × Option RtmpMsg × List Nat) :=
  if ch.header.payloadLength = 0 ∨ 2 ^ 31 ≤ ch.header.payloadLength then
    .ok ({ ch with msg := none }, ch.msg, buf)
  else
    match ch.msg with
    | none => .error .panicked
    | some m =>
      let psize : Int :=
        min ((ch.header.payloadLength : Int) - (m.receivedPayloadLength : Int))
            (inChunkSize : Int)
      let p0 := match m.payload with
                | some p => p
                | none => List.replicate m.header.payloadLength 0
      if psize < 0 then .error .panicked
      else if (buf.length : Int) < psize then .error .ioError
      else
        let sz := psize.toNat
        let p1 := p0.take m.receivedPayloadLength ++ buf.take sz
                    ++ p0.drop (m.receivedPayloadLength + sz)
        let m1 := { m with payload := some p1, receivedPayloadLength := m.receivedPayloadLength + sz }
        let buf1 := buf.drop sz
        if m1.receivedPayloadLength = p1.length then
          .ok ({ ch with msg := none }, some m1, buf1)
        else
          .ok ({ ch with msg := some m1 }, none, buf1)

/-- `response_acknowledgement_message`: an explicit TODO stub in the source —
it sends nothing and changes nothing. -/
def responseAcknowledgementMessage (s : ProtoState) : Except Err ProtoState :=
  .ok s

/-- `on_recv_message`: fire the ACK check; everything else is TODO in the
source. -/
def onRecvMessage (s : ProtoState) (_msg : RtmpMsg) : Except Err ProtoState :=
  if shouldAckRead s.inAckSize s.recvBytes then responseAcknowledgementMessage s
  else .ok s

/-- `recv_interlaced_message`: basic header, chunk lookup-or-create, message
header, payload.  The CID is returned alongside for the statements below (Go
keeps it in the chunk). -/
def recvInterlacedMessage (s : ProtoState) :
    Except Err (ProtoState × Nat × Option RtmpMsg) :=
  match readBasicHeader s.buffer with
  | .error e => .error e
  | .ok (fmt, cid, _bh, buf1) =>
    let ch := match s.chunkStreams.lookup cid with
              | some c => c
              | none => { cid := cid }
    match readMessageHeader ch fmt buf1 with
    | .error e => .error e
    | .ok (_mh, ch1, buf2) =>
      match readMessagePayload s.inChunkSize ch1 buf2 with
      | .error e => .error e
      | .ok (ch2, omsg, buf3) =>
        .ok ({ s with chunkStreams := setCS s.chunkStreams cid ch2, buffer := buf3 }, cid, omsg)

/-- `RecvMessage`: loop `recv_interlaced_message`, skipping incomplete
returns and zero-length messages (`ReceivedPayloadLength <= 0` or uint32
`PayloadLength <= 0`), then run `on_recv_message` and hand the message up. -/
def recvMessage (fuel : Nat) (s : ProtoState) :
    Except Err (ProtoState × Nat × RtmpMsg) :=
  match fuel with
  | 0 => .error .outOfFuel
  | fuel + 1 =>
    match recvInterlacedMessage s with
    | .error e => .error e
    | .ok (s1, cid, omsg) =>
      match omsg with
      | none => recvMessage fuel s1
      | some msg =>
        if msg.receivedPayloadLength = 0 ∨ msg.header.payloadLength = 0 then
          recvMessage fuel s1
        else
          match onRecvMessage s1 msg with
          | .error e => .error e
          | .ok s2 => .ok (s2, cid, msg)

/-! ### The reassembly invariant -/

/-- What holds of a cached partial message relative to its chunk stream's
current `payload_length`: an allocated payload has exactly that length and the
cursor is strictly inside it; an unallocated payload has cursor zero. -/
def msgInvAux (plen : Nat) (m : RtmpMsg) : Prop :=
  (∀ p, m.payload = some p → p.length = plen ∧ m.receivedPayloadLength < p.length)
  ∧ (m.payload = none → m.receivedPayloadLength = 0)

/-- Per-chunk-stream invariant. -/
def chunkInv (ch : ChunkStream) : Prop :=
  ∀ m, ch.msg = some m → msgInvAux ch.header.payloadLength m

/-- Whole-state invariant: a positive chunk size (the source only ever uses
the default 128) and every cached chunk stream wellformed. -/
def protoInv (s : ProtoState) : Prop :=
  1 ≤ s.inChunkSize
  ∧ ∀ cid ch, s.chunkStreams.lookup cid = some ch → chunkInv ch

theorem lookupCS_cons (k a : Nat) (v : ChunkStream)
    (rest : List (Nat × ChunkStream)) :
    List.lookup k ((a, v) :: rest)
      = if k = a then some v else List.lookup k rest := by
  by_cases h : k = a
  · simp [List.lookup, h]
  · have hb : (k == a) = false := by simpa using h
    simp [List.lookup, hb, h]

theorem lookup_map_replace (cid : Nat) (ch : ChunkStream)
    (m : List (Nat × ChunkStream))
    (hany : m.any (fun p => decide (p.1 = cid)) = true) :
    (m.map (fun p => if p.1 = cid then (cid, ch) else p)).lookup cid
      = some ch := by
  induction m with
  | nil => simp at hany
  | cons p rest ih =>
    obtain ⟨a, v⟩ := p
    by_cases hp : a = cid
    · subst hp
      simp [lookupCS_cons]
    · rw [List.any_cons] at hany
      have hx : decide ((a, v).1 = cid) = false := by simp [hp]
      rw [hx, Bool.false_or] at hany
      have hca : ¬ cid = a := fun hEq => hp hEq.symm
      simp [if_neg hp, lookupCS_cons, hca, ih hany]

theorem lookup_append_single (cid : Nat) (ch : ChunkStream)
    (m : List (Nat × ChunkStream))
    (hany : m.any (fun p => decide (p.1 = cid)) = false) :
    (m ++ [(cid, ch)]).lookup cid = some ch := by
  induction m with
  | nil => simp [lookupCS_cons]
  | cons p rest ih =>
    obtain ⟨a, v⟩ := p
    rw [List.any_cons] at hany
    rcases Bool.or_eq_false_iff.mp hany with ⟨h1, h2⟩
    have hp : ¬ a = cid := by simpa using h1
    have hca : ¬ cid = a := fun hEq => hp hEq.symm
    simp [lookupCS_cons, hca, ih h2]

theorem lookup_setCS_self (m : List (Nat × ChunkStream)) (cid : Nat)
    (ch : ChunkStream) : (setCS m cid ch).lookup cid = some ch := by
  rw [setCS]
  cases hb : m.any (fun p => decide (p.1 = cid)) with
  | true =>
    rw [if_pos rfl]
    exact lookup_map_replace cid ch m hb
  | false =>
    rw [if_neg (by simp)]
    exact lookup_append_single cid ch m hb

theorem lookup_map_ne (cid cid' : Nat) (ch : ChunkStream)
    (m : List (Nat × ChunkStream)) (h : cid' ≠ cid) :
    (m.map (fun p => if p.1 = cid then (cid, ch) else p)).lookup cid'
      = m.lookup cid' := by
  induction m with
  | nil => simp
  | cons p rest ih =>
    obtain ⟨a, v⟩ := p
    by_cases hp : a = cid
    · subst hp
      simp [lookupCS_cons, ih, h]
    · simp [if_neg hp, lookupCS_cons, ih]

theorem lookup_append_ne (cid cid' : Nat) (ch : ChunkStream)
    (m : List (Nat × ChunkStream)) (h : cid' ≠ cid) :
    (m ++ [(cid, ch)]).lookup cid' = m.lookup cid' := by
  induction m with
  | nil => simp [lookupCS_cons, h]
  | cons p rest ih =>
    obtain ⟨a, v⟩ := p
    simp [lookupCS_cons, ih]

theorem lookup_setCS_ne (m : List (Nat × ChunkStream)) (cid cid' : Nat)
    (ch : ChunkStream) (h : cid' ≠ cid) :
    (setCS m cid ch).lookup cid' = m.lookup cid' := by
  rw [setCS]
  cases hb : m.any (fun p => decide (p.1 = cid)) with
  | true =>
    rw [if_pos rfl]
    exact lookup_map_ne cid cid' ch m h
  | false =>
    rw [if_neg (by simp)]
    exact lookup_append_ne cid cid' ch m h


theorem readMessageHeaderBody_ok (ch : ChunkStream) (fmt : Nat)
    (buf : List Nat) (mh : Nat) (ch1 : ChunkStream) (buf1 : List Nat)
    (h : readMessageHeaderBody ch fmt buf = .ok (mh, ch1, buf1)) :
    ∃ hdr2 ext1,
      ch1 = { ch with header := hdr2, extendedTimestamp := ext1, msg := some { ch.msg.getD {} with header := hdr2 }, msgCount := ch.msgCount + 1 }
      ∧ hdr2.payloadLength < 2 ^ 31
      ∧ ((∀ p, (ch.msg.getD {}).payload = some p → p.length = hdr2.payloadLength)
          ∨ hdr2.payloadLength = ch.header.payloadLength) := by
  simp only [readMessageHeaderBody] at h
  split at h
  · exact absurd h (by simp)
  · split at h
    · exact absurd h (by simp)
    · rename_i hdr1 ext1 heq
      split at h
      · exact absurd h (by simp)
      · rename_i ts2 mh2 buf2 heq2
        split at h
        · exact absurd h (by simp)
        · rename_i hplen
          injection h with htriple
          injection htriple with hA hrest
          injection hrest with hB hC
          refine ⟨{ hdr1 with timestamp := ts2 }, ext1, hB.symm,
            by rw [show ({ hdr1 with timestamp := ts2 } : MessageHeader).payloadLength = hdr1.payloadLength from rfl]; omega, ?_⟩
          split at heq
          · split at heq
            · split at heq
              · exact absurd heq (by simp)
              · rename_i hguard
                injection heq with hpair
                injection hpair with heqh heqe
                subst heqh
                left
                intro p hp
                by_contra hne
                apply hguard
                refine ⟨by simp [hp], ?_⟩
                simpa [hp] using hne
            · injection heq with hpair
              injection hpair with heqh heqe
              subst heqh
              right
              rfl
          · injection heq with hpair
            injection hpair with heqh heqe
            subst heqh
            right
            rfl


theorem readMessageHeader_ok (ch : ChunkStream) (fmt : Nat) (buf : List Nat)
    (mh : Nat) (ch1 : ChunkStream) (buf1 : List Nat)
    (hch : chunkInv ch)
    (h : readMessageHeader ch fmt buf = .ok (mh, ch1, buf1)) :
    chunkInv ch1 ∧ ch1.header.payloadLength < 2 ^ 31
      ∧ (∀ m1, ch1.msg = some m1 → m1.header = ch1.header) := by
  unfold readMessageHeader at h
  split at h
  · exact absurd h (by simp)
  · split at h
    · exact absurd h (by simp)
    · obtain ⟨hdr2, ext1, hch1, hplen, hpay⟩ :=
        readMessageHeaderBody_ok ch fmt buf mh ch1 buf1 h
      subst hch1
      refine ⟨?_, hplen, ?_⟩
      · intro m1 hm1
        have hm1e : ({ ch.msg.getD {} with header := hdr2 } : RtmpMsg) = m1 := by
          simpa using hm1
        subst hm1e
        constructor
        · intro p hp
          cases hmsg : ch.msg with
          | none =>
            rw [hmsg] at hp
            simp at hp
          | some m =>
            have hinv := hch m hmsg
            rw [hmsg] at hp hpay
            simp only [Option.getD_some] at hp hpay
            rcases hpay with hL | hR
            · exact ⟨hL p hp, (hinv.1 p hp).2⟩
            · have hm := hinv.1 p hp
              exact ⟨by rw [hR]; exact hm.1, hm.2⟩
        · intro hp
          cases hmsg : ch.msg with
          | none => rfl
          | some m =>
            have hinv := hch m hmsg
            rw [hmsg] at hp
            exact hinv.2 hp
      · intro m1 hm1
        have hm1e : ({ ch.msg.getD {} with header := hdr2 } : RtmpMsg) = m1 := by
          simpa using hm1
        subst hm1e
        rfl

theorem readMessagePayload_ok (ics : Nat) (ch : ChunkStream) (buf : List Nat)
    (ch2 : ChunkStream) (omsg : Option RtmpMsg) (buf1 : List Nat)
    (hics : 1 ≤ ics) (hch : chunkInv ch)
    (hhdr : ∀ m, ch.msg = some m → m.header = ch.header)
    (h : readMessagePayload ics ch buf = .ok (ch2, omsg, buf1)) :
    chunkInv ch2
      ∧ (∀ m, omsg = some m → ch2.msg = none
          ∧ ((∃ p, m.payload = some p ∧ p.length = m.header.payloadLength)
             ∨ (m.payload = none ∧ m.receivedPayloadLength = 0))) := by
  simp only [readMessagePayload] at h
  split at h
  · -- empty-message path: the slot is handed out and cleared
    injection h with htriple
    injection htriple with hA hrest
    injection hrest with hB hC
    subst hA hB hC
    constructor
    · intro m hm
      simp at hm
    · intro m hm
      refine ⟨rfl, ?_⟩
      have hinv := hch m hm
      cases hp : m.payload with
      | none => exact Or.inr ⟨rfl, hinv.2 hp⟩
      | some p =>
        left
        refine ⟨p, rfl, ?_⟩
        rw [hhdr m hm]
        exact (hinv.1 p hp).1
  · rename_i hcond
    split at h
    · exact absurd h (by simp)
    · rename_i m heq
      have hinv := hch m heq
      have hmh := hhdr m heq
      have hplen1 : 1 ≤ ch.header.payloadLength ∧ ch.header.payloadLength < 2 ^ 31 := by
        constructor <;> omega
      -- the cursor is strictly inside the payload length
      have hrecv : m.receivedPayloadLength < ch.header.payloadLength := by
        cases hp : m.payload with
        | none =>
          have := hinv.2 hp
          omega
        | some p =>
          have hq := hinv.1 p hp
          omega
      -- the allocated-or-existing backing array has exactly payloadLength bytes
      have hp0len : (match m.payload with
          | some p => p
          | none => List.replicate m.header.payloadLength 0).length
            = ch.header.payloadLength := by
        cases hp : m.payload with
        | none =>
          simp [hmh]
        | some p =>
          simp [(hinv.1 p hp).1]
      split at h
      · exact absurd h (by simp)
      · split at h
        · exact absurd h (by simp)
        · rename_i hnneg hroom
          -- name the chunk transfer size
          have hszle : (min ((ch.header.payloadLength : Int) - (m.receivedPayloadLength : Int)) (ics : Int)).toNat
              ≤ ch.header.payloadLength - m.receivedPayloadLength := by
            omega
          have hsz1 : 1 ≤ (min ((ch.header.payloadLength : Int) - (m.receivedPayloadLength : Int)) (ics : Int)).toNat := by
            omega
          have hszbuf : (min ((ch.header.payloadLength : Int) - (m.receivedPayloadLength : Int)) (ics : Int)).toNat
              ≤ buf.length := by
            omega
          have hp1len : (List.take m.receivedPayloadLength (match m.payload with
                | some p => p
                | none => List.replicate m.header.payloadLength 0)
              ++ List.take ((min ((ch.header.payloadLength : Int) - (m.receivedPayloadLength : Int)) (ics : Int)).toNat) buf
              ++ List.drop (m.receivedPayloadLength + (min ((ch.header.payloadLength : Int) - (m.receivedPayloadLength : Int)) (ics : Int)).toNat) (match m.payload with
                | some p => p
                | none => List.replicate m.header.payloadLength 0)).length
              = ch.header.payloadLength := by
            simp only [List.length_append, List.length_take, List.length_drop, hp0len]
            omega
          split at h
          · -- message completed: slot cleared, message returned
            rename_i hdone
            injection h with htriple
            injection htriple with hA hrest
            injection hrest with hB hC
            subst hA hB hC
            constructor
            · intro m' hm'
              simp at hm'
            · intro m' hm'
              have hm'e : _ = m' := Option.some.inj hm'
              subst hm'e
              refine ⟨rfl, Or.inl ⟨_, rfl, ?_⟩⟩
              rw [hp1len, hmh]
          · -- partial message: slot keeps the grown message
            rename_i hdone
            injection h with htriple
            injection htriple with hA hrest
            injection hrest with hB hC
            subst hA hB hC
            constructor
            · intro m' hm'
              have hm'e : _ = m' := Option.some.inj hm'
              subst hm'e
              constructor
              · intro p hp
                have hpe : _ = p := Option.some.inj hp
                subst hpe
                refine ⟨hp1len, ?_⟩
                rw [hp1len]
                have hne : m.receivedPayloadLength + (min ((ch.header.payloadLength : Int) - (m.receivedPayloadLength : Int)) (ics : Int)).toNat
                    ≠ ch.header.payloadLength := by
                  intro hEq
                  exact hdone (by rw [hp1len]; exact hEq)
                show m.receivedPayloadLength
                    + (min ((ch.header.payloadLength : Int) - (m.receivedPayloadLength : Int)) (ics : Int)).toNat
                    < ch.header.payloadLength
                omega
              · intro hp
                simp at hp
            · intro m' hm'
              simp at hm'

theorem onRecvMessage_eq (s : ProtoState) (m : RtmpMsg) :
    onRecvMessage s m = .ok s := by
  unfold onRecvMessage responseAcknowledgementMessage
  split <;> rfl

theorem recvInterlacedMessage_ok (s s1 : ProtoState) (cid : Nat)
    (omsg : Option RtmpMsg) (hInv : protoInv s)
    (h : recvInterlacedMessage s = .ok (s1, cid, omsg)) :
    protoInv s1
      ∧ (∀ m, omsg = some m →
          ((∃ p, m.payload = some p ∧ p.length = m.header.payloadLength)
            ∨ (m.payload = none ∧ m.receivedPayloadLength = 0))
          ∧ ∃ ch2, s1.chunkStreams.lookup cid = some ch2 ∧ ch2.msg = none) := by
  simp only [recvInterlacedMessage] at h
  split at h
  · exact absurd h (by simp)
  · rename_i fmt cid0 bh buf1 heqbasic
    split at h
    · exact absurd h (by simp)
    · rename_i mh ch1 buf2 heqhdr
      split at h
      · exact absurd h (by simp)
      · rename_i ch2 omsg0 buf3 heqpay
        injection h with htriple
        injection htriple with hA hrest
        injection hrest with hB hC
        subst hA hB hC
        -- the chunk the header parser ran on satisfies the invariant
        have hch0 : chunkInv (match s.chunkStreams.lookup cid0 with
            | some c => c
            | none => { cid := cid0 }) := by
          cases hl : s.chunkStreams.lookup cid0 with
          | none =>
            intro m hm
            simp at hm
          | some c => exact hInv.2 cid0 c hl
        have hhdr := readMessageHeader_ok _ fmt buf1 mh ch1 buf2 hch0 heqhdr
        have hpay := readMessagePayload_ok s.inChunkSize ch1 buf2 ch2 omsg0 buf3
          hInv.1 hhdr.1 hhdr.2.2 heqpay
        constructor
        · refine ⟨hInv.1, ?_⟩
          intro cid' ch' hl'
          by_cases hcc : cid' = cid0
          · subst hcc
            rw [lookup_setCS_self] at hl'
            have := Option.some.inj hl'
            subst this
            exact hpay.1
          · rw [lookup_setCS_ne _ _ _ _ hcc] at hl'
            exact hInv.2 cid' ch' hl'
        · intro m hm
          have hout := hpay.2 m hm
          refine ⟨hout.2, ch2, ?_, hout.1⟩
          exact lookup_setCS_self s.chunkStreams cid0 ch2

/-- **C2.**  Whenever `RecvMessage` returns a message, the payload slice has
exactly `payload_length` bytes (the header copied into the message), and the
chunk stream of the CID the message arrived on has an empty partial-message
slot. -/
theorem claim_C2_recv_message (fuel : Nat) (s s1 : ProtoState) (cid : Nat)
    (m : RtmpMsg) (hInv : protoInv s)
    (h : recvMessage fuel s = .ok (s1, cid, m)) :
    (∃ p, m.payload = some p ∧ p.length = m.header.payloadLength)
      ∧ ∃ ch, s1.chunkStreams.lookup cid = some ch ∧ ch.msg = none := by
  induction fuel generalizing s with
  | zero => exact absurd h (by simp [recvMessage])
  | succ fuel ih =>
    rw [recvMessage] at h
    split at h
    · exact absurd h (by simp)
    · rename_i s2 cid2 omsg heqint
      have hint := recvInterlacedMessage_ok s s2 cid2 omsg hInv heqint
      split at h
      · exact ih s2 hint.1 h
      · rename_i msg2
        split at h
        · exact ih s2 hint.1 h
        · rename_i hskip
          rw [onRecvMessage_eq] at h
          injection h with htriple
          injection htriple with hA hrest
          injection hrest with hB hC
          subst hA hB hC
          have hout := hint.2 msg2 rfl
          rcases hout.1 with hL | hR
          · exact ⟨hL, hout.2⟩
          · exact absurd (Or.inl hR.2) hskip

/-- A starting state for exercising the receive path on one fmt-0 chunk
carrying a complete 2-byte AMF0-command message on CID 3. -/
def c2State0 : ProtoState :=
  { buffer := [3, 0, 0, 0, 0, 0, 2, 20, 0, 0, 0, 0, 170, 187] }

/-- The state after `RecvMessage` consumes the single chunk of `c2State0`. -/
def c2State1 : ProtoState :=
  { chunkStreams := [(3, { cid := 3, header := { messageType := 20, payloadLength := 2 }, msg := none, msgCount := 1 })],
    buffer := [] }

/-- The message `RecvMessage` returns on `c2State0`. -/
def c2Msg : RtmpMsg :=
  { header := { messageType := 20, payloadLength := 2 },
    payload := some [170, 187], receivedPayloadLength := 2 }

/-- **C2** (witness): the invariant holds of the concrete starting state and
the received message carries a payload of exactly `payload_length` bytes with
the CID-3 slot empty. -/
theorem claim_C2_recv_message_witness :
    protoInv c2State0
      ∧ ((∃ p, c2Msg.payload = some p ∧ p.length = c2Msg.header.payloadLength)
         ∧ ∃ ch, c2State1.chunkStreams.lookup 3 = some ch ∧ ch.msg = none) := by
  have hInv : protoInv c2State0 := by
    refine ⟨by norm_num [c2State0, RTMP_DEFAULT_CHUNK_SIZE], ?_⟩
    intro cid ch h
    simp [c2State0] at h
  exact ⟨hInv, claim_C2_recv_message 5 c2State0 c2State1 3 c2Msg hInv rfl⟩

theorem readMessageHeaderBody_ne_chunkStart (ch : ChunkStream) (fmt : Nat)
    (buf : List Nat) :
    readMessageHeaderBody ch fmt buf ≠ .error .chunkStart := by
  intro h
  simp only [readMessageHeaderBody] at h
  split at h
  · exact absurd h (by simp)
  · split at h
    · rename_i e heq
      have he : e = .packetSize := by
        split at heq
        · split at heq
          · split at heq
            · exact (Except.error.inj heq).symm
            · exact absurd heq (by simp)
          · exact absurd heq (by simp)
        · exact absurd heq (by simp)
      subst he
      exact absurd h (by simp)
    · split at h
      · rename_i e2 heq2
        have he2 : e2 = .ioError := by
          split at heq2
          · simp only [readExtendedTimestamp] at heq2
            split at heq2
            · exact (Except.error.inj heq2).symm
            · split at heq2 <;> exact absurd heq2 (by simp)
          · exact absurd heq2 (by simp)
        subst he2
        exact absurd h (by simp)
      · split at h
        · exact absurd h (by simp)
        · exact absurd h (by simp)

/-- **C3.**  `read_message_header` fails with the ChunkStart error exactly
when the fmt/CID invariant is violated: either the chunk stream is fresh
(`msg_count == 0`) and fmt is not 0, or fmt is 0 while a partial message is
inflight; in every other case whatever error occurs (transport, PacketSize,
InvalidMsgSize) is not ChunkStart. -/
theorem claim_C3_chunk_start (ch : ChunkStream) (fmt : Nat) (buf : List Nat) :
    readMessageHeader ch fmt buf = .error .chunkStart
      ↔ ((ch.msgCount = 0 ∧ fmt ≠ RTMP_FMT_TYPE0)
         ∨ (ch.msg ≠ none ∧ fmt = RTMP_FMT_TYPE0)) := by
  constructor
  · intro h
    unfold readMessageHeader at h
    split at h
    · rename_i hg
      exact Or.inl hg
    · split at h
      · rename_i hg
        right
        refine ⟨?_, hg.2⟩
        have := hg.1
        intro hEq
        rw [hEq] at this
        simp at this
      · exact absurd h (readMessageHeaderBody_ne_chunkStart ch fmt buf)
  · intro hcond
    unfold readMessageHeader
    rcases hcond with ⟨h1, h2⟩ | ⟨h1, h2⟩
    · rw [if_pos ⟨h1, h2⟩]
    · rw [if_neg (by intro hc; exact hc.2 h2), if_pos ?_]
      refine ⟨?_, h2⟩
      cases hm : ch.msg with
      | none => exact absurd hm h1
      | some m => simp [hm]

/-- **C4.**  For a fmt-3 chunk on a CID whose sticky extended-timestamp flag
is set, the decoder peeks the next 4 buffered bytes as a big-endian u32 `t`:
if the accumulated chunk timestamp already exceeds 0x00FFFFFF and differs
from `t`, the 4 bytes are left unconsumed in the buffer and the reported
message-header size is reduced by 4 (back to 0 for fmt 3); otherwise the 4
bytes are consumed, the reported size includes them (4), and the chunk
timestamp becomes `t`. -/
theorem claim_C4_extended_timestamp (ch : ChunkStream) (buf : List Nat)
    (hcount : ch.msgCount ≠ 0) (hext : ch.extendedTimestamp = true)
    (hplen : ch.header.payloadLength < 2 ^ 31) (hbuf : 4 ≤ buf.length) :
    if RTMP_EXTENDED_TIMESTAMP < ch.header.timestamp
        ∧ ch.header.timestamp ≠ beVal (buf.take 4) then
      (readMessageHeader ch 3 buf).map (fun r => (r.1, r.2.2)) = .ok (0, buf)
        ∧ (readMessageHeader ch 3 buf).map (fun r => r.2.1.header.timestamp)
            = .ok ch.header.timestamp
    else
      (readMessageHeader ch 3 buf).map (fun r => (r.1, r.2.2)) = .ok (4, buf.drop 4)
        ∧ (readMessageHeader ch 3 buf).map (fun r => r.2.1.header.timestamp)
            = .ok (beVal (buf.take 4)) := by
  have hmh3 : mhSizeOf 3 = 0 := rfl
  by_cases hdet : RTMP_EXTENDED_TIMESTAMP < ch.header.timestamp
      ∧ ch.header.timestamp ≠ beVal (buf.take 4)
  · rw [if_pos hdet]
    unfold readMessageHeader
    rw [if_neg (by intro hc; exact hcount hc.1),
        if_neg (by intro hc; simp [RTMP_FMT_TYPE0] at hc)]
    simp only [readMessageHeaderBody, readExtendedTimestamp, hmh3, hext]
    rw [if_neg (by simp : ¬ buf.length < 0)]
    rw [if_neg (by simp [RTMP_FMT_TYPE2] : ¬ 3 ≤ RTMP_FMT_TYPE2)]
    simp only [Bool.true_eq_false, and_false, if_false, if_true, List.drop_zero]
    rw [if_neg (by omega : ¬ buf.length < 4), if_pos hdet]
    simp only []
    rw [if_neg (by omega : ¬ (2:Nat) ^ 31 ≤ ch.header.payloadLength)]
    exact ⟨rfl, rfl⟩
  · rw [if_neg hdet]
    unfold readMessageHeader
    rw [if_neg (by intro hc; exact hcount hc.1),
        if_neg (by intro hc; simp [RTMP_FMT_TYPE0] at hc)]
    simp only [readMessageHeaderBody, readExtendedTimestamp, hmh3, hext]
    rw [if_neg (by simp : ¬ buf.length < 0)]
    rw [if_neg (by simp [RTMP_FMT_TYPE2] : ¬ 3 ≤ RTMP_FMT_TYPE2)]
    simp only [Bool.true_eq_false, and_false, if_false, if_true, List.drop_zero]
    rw [if_neg (by omega : ¬ buf.length < 4), if_neg hdet]
    simp only []
    rw [if_neg (by omega : ¬ (2:Nat) ^ 31 ≤ ch.header.payloadLength)]
    exact ⟨rfl, rfl⟩

/-- A chunk state matching spec scenario 6: established timestamp 0x1000000,
sticky extended-timestamp flag set, a 200-byte message half received. -/
def c4Chunk : ChunkStream :=
  { cid := 4,
    header := { messageType := 8, payloadLength := 200, timestampDelta := 5, timestamp := 16777216 },
    extendedTimestamp := true,
    msg := some { header := { messageType := 8, payloadLength := 200 }, payload := some (List.replicate 200 0), receivedPayloadLength := 50 },
    msgCount := 1 }

/-- **C4** (witness): with buffered bytes 0x12345678 differing from the
accumulated timestamp 0x1000000, the decoder leaves them unconsumed and
reports a zero-size message header. -/
theorem claim_C4_extended_timestamp_witness :
    c4Chunk.msgCount ≠ 0 ∧ c4Chunk.extendedTimestamp = true
      ∧ c4Chunk.header.payloadLength < 2 ^ 31
      ∧ 4 ≤ ([18, 52, 86, 120] : List Nat).length
      ∧ (if RTMP_EXTENDED_TIMESTAMP < c4Chunk.header.timestamp
            ∧ c4Chunk.header.timestamp ≠ beVal (([18, 52, 86, 120] : List Nat).take 4) then
          (readMessageHeader c4Chunk 3 [18, 52, 86, 120]).map (fun r => (r.1, r.2.2))
              = .ok (0, [18, 52, 86, 120])
            ∧ (readMessageHeader c4Chunk 3 [18, 52, 86, 120]).map
                (fun r => r.2.1.header.timestamp) = .ok c4Chunk.header.timestamp
        else
          (readMessageHeader c4Chunk 3 [18, 52, 86, 120]).map (fun r => (r.1, r.2.2))
              = .ok (4, ([18, 52, 86, 120] : List Nat).drop 4)
            ∧ (readMessageHeader c4Chunk 3 [18, 52, 86, 120]).map
                (fun r => r.2.1.header.timestamp)
              = .ok (beVal (([18, 52, 86, 120] : List Nat).take 4))) :=
  ⟨by decide, rfl, by decide, by decide,
   claim_C4_extended_timestamp c4Chunk [18, 52, 86, 120] (by decide) rfl
     (by decide) (by decide)⟩

/-- The C9 counterexample chunk: a continuation chunk (partial message
cached) whose sticky extended-timestamp flag is set and whose accumulated
timestamp is 100. -/
def c9Chunk : ChunkStream :=
  { cid := 4,
    header := { messageType := 8, payloadLength := 200, timestampDelta := 10, timestamp := 100 },
    extendedTimestamp := true,
    msg := some { header := { messageType := 8, payloadLength := 200 }, payload := some (List.replicate 200 0), receivedPayloadLength := 50 },
    msgCount := 1 }

/-- **C9** (counterexample).  The claim fails as stated for a fmt-3
continuation chunk: on `c9Chunk` (a partial message is cached, accumulated
timestamp 100) the decoder does not leave the timestamp unchanged — the
sticky extended-timestamp flag makes it consume the next 4 bytes `[0,0,1,0]`
and overwrite the timestamp with 256. -/
theorem claim_C9_counterexample :
    (readMessageHeader c9Chunk 3 [0, 0, 1, 0]).map
        (fun r => r.2.1.header.timestamp) = .ok 256
      ∧ c9Chunk.msg ≠ none ∧ c9Chunk.header.timestamp = 100 :=
  ⟨rfl, by simp [c9Chunk], rfl⟩

/-- **C9** (amended).  For a fmt-3 chunk with no extended-timestamp chunk
pending (sticky flag clear): if it starts a new message on its CID (no
partial message cached) the decoder adds the last cached `timestamp_delta`
to the accumulated timestamp, replaying the previous message delta; if it
continues a partial message the timestamp is left unchanged.  (With the
sticky flag set, the extended-timestamp detection may instead consume 4
bytes and overwrite the timestamp — see the counterexample.) -/
theorem claim_C9_fmt3_timestamp (ch : ChunkStream) (buf : List Nat)
    (hcount : ch.msgCount ≠ 0) (hext : ch.extendedTimestamp = false)
    (hplen : ch.header.payloadLength < 2 ^ 31) :
    ∃ ch1, readMessageHeader ch 3 buf = .ok (0, ch1, buf)
      ∧ ch1.header.timestamp
          = (if ch.msg.isNone then
              (ch.header.timestamp + ch.header.timestampDelta) % 2 ^ 64
             else ch.header.timestamp)
      ∧ ch1.header.timestampDelta = ch.header.timestampDelta := by
  have hmh3 : mhSizeOf 3 = 0 := rfl
  unfold readMessageHeader
  rw [if_neg (by intro hc; exact hcount hc.1),
      if_neg (by intro hc; simp [RTMP_FMT_TYPE0] at hc)]
  simp only [readMessageHeaderBody, hmh3, hext]
  rw [if_neg (by simp : ¬ buf.length < 0)]
  rw [if_neg (by simp [RTMP_FMT_TYPE2] : ¬ 3 ≤ RTMP_FMT_TYPE2)]
  simp only [Bool.false_eq_true, if_false, List.drop_zero, and_true]
  rw [if_neg (by omega : ¬ (2:Nat) ^ 31 ≤ ch.header.payloadLength)]
  refine ⟨_, rfl, ?_, rfl⟩
  by_cases hfresh : ch.msg.isNone = true
  · simp [hfresh]
  · simp [hfresh]

/-- A fresh-message fmt-3 chunk for the C9 witness: no partial message,
previous delta 26, accumulated timestamp 100, no extended timestamp. -/
def c9FreshChunk : ChunkStream :=
  { cid := 4,
    header := { messageType := 8, payloadLength := 157, timestampDelta := 26, timestamp := 100 },
    msgCount := 1 }

/-- **C9** (witness): on the fresh fmt-3 chunk the delta 26 is replayed onto
timestamp 100. -/
theorem claim_C9_fmt3_timestamp_witness :
    c9FreshChunk.msgCount ≠ 0 ∧ c9FreshChunk.extendedTimestamp = false
      ∧ c9FreshChunk.header.payloadLength < 2 ^ 31
      ∧ ∃ ch1, readMessageHeader c9FreshChunk 3 [] = .ok (0, ch1, [])
          ∧ ch1.header.timestamp
              = (if c9FreshChunk.msg.isNone then
                  (c9FreshChunk.header.timestamp + c9FreshChunk.header.timestampDelta) % 2 ^ 64
                 else c9FreshChunk.header.timestamp)
          ∧ ch1.header.timestampDelta = c9FreshChunk.header.timestampDelta :=
  ⟨by decide, rfl, by decide,
   claim_C9_fmt3_timestamp c9FreshChunk [] (by decide) rfl (by decide)⟩

/-- **C8** (the code as written).  `on_recv_message` checks the ACK window,
but `response_acknowledgement_message` is an explicit TODO stub: even when
`recv_bytes - acked_size` exceeds the window, processing a received message
returns the state unchanged — no Acknowledgement message is produced and
`acked_size` is not advanced, contradicting the documented invariant. -/
theorem claim_C8_ack_stub (s : ProtoState) (m : RtmpMsg)
    (h : shouldAckRead s.inAckSize s.recvBytes = true) :
    onRecvMessage s m = .ok s := by
  unfold onRecvMessage responseAcknowledgementMessage
  rw [if_pos h]

/-- A state whose ACK window (10 bytes) is exceeded by the received count
(20 bytes, none acknowledged). -/
def c8State : ProtoState :=
  { inAckSize := { ack_window_size := 10, acked_size := 0 }, recvBytes := 20 }

/-- **C8** (witness): the window is due for an ACK, yet processing changes
nothing. -/
theorem claim_C8_ack_stub_witness :
    shouldAckRead c8State.inAckSize c8State.recvBytes = true
      ∧ onRecvMessage c8State {} = .ok c8State :=
  ⟨by decide, claim_C8_ack_stub c8State {} (by decide)⟩

/-! ## Simple handshake (`src/unnamed/part_000`) -/

/-- `SimpleHandshake`: read 1537 bytes (C0+C1) with `io.ReadFull`; build the
3073-byte S0S1S2 by copying the received C0+C1 into a zero-filled buffer (so
S2 is 1536 zero bytes); write it; read and discard 1536 bytes (C2).  There
is no version check, and `io.ReadFull` failures surface as transport
(`Err.ioError`) errors.  Returns the written reply and the unread input. -/
def simpleHandshake (input : List Nat) : Except Err (List Nat × List Nat) :=
  if input.length < 1537 then .error .ioError
  else if (input.drop 1537).length < 1536 then .error .ioError
  else .ok (input.take 1537 ++ List.replicate 1536 0, (input.drop 1537).drop 1536)

/-- **C5** (counterexample).  The claim fails as stated: on C0 = 0x07 (not
version 3) followed by C1 of 0x41 bytes and C2 of 0x41 bytes, the handshake
succeeds — no Handshake error is raised for the wrong version byte — and the
reply's S2 is 1536 zero bytes, not the received C1. -/
theorem claim_C5_counterexample :
    simpleHandshake (7 :: List.replicate 3072 65)
        = .ok ((7 :: List.replicate 1536 65) ++ List.replicate 1536 0, [])
      ∧ (7 : Nat) ≠ 3
      ∧ List.replicate 1536 (0 : Nat) ≠ List.replicate 1536 65 := by
  refine ⟨?_, by decide, ?_⟩
  · have htake : (7 :: List.replicate 3072 (65 : Nat)).take 1537
        = 7 :: List.replicate 1536 65 := by
      rw [show (1537 : Nat) = 1536 + 1 from rfl, List.take_succ_cons,
        List.take_replicate]
      norm_num
    have hdrop : (7 :: List.replicate 3072 (65 : Nat)).drop (1536 + 1537)
        = [] := by
      apply List.drop_eq_nil_of_le
      simp only [List.length_cons, List.length_replicate]
      omega
    unfold simpleHandshake
    rw [if_neg (by simp only [List.length_cons, List.length_replicate]; omega)]
    rw [if_neg (by
      rw [List.length_drop]
      simp only [List.length_cons, List.length_replicate]
      omega)]
    rw [List.drop_drop, htake, hdrop]
  · intro h
    have h0 : (0 : Nat) ∈ List.replicate 1536 (0 : Nat) :=
      List.mem_replicate.2 ⟨by decide, rfl⟩
    rw [h] at h0
    exact absurd (List.eq_of_mem_replicate h0) (by decide)

/-- **C5** (amended).  The simple handshake reads C0+C1 as one 1537-byte
block without validating the version byte, replies with the received C0+C1
followed by 1536 zero bytes (S2 is zeros, not an echo of C1), and reads and
discards C2 (1536 bytes); a short read fails with the transport error
(`Err.ioError`), and no other error can occur. -/
theorem claim_C5_simple_handshake (input : List Nat) :
    (3073 ≤ input.length →
       simpleHandshake input
         = .ok (input.take 1537 ++ List.replicate 1536 0, input.drop 3073))
    ∧ (input.length < 1537 → simpleHandshake input = .error .ioError)
    ∧ (∀ e, simpleHandshake input = .error e → e = .ioError) := by
  refine ⟨?_, ?_, ?_⟩
  · intro hlen
    unfold simpleHandshake
    rw [if_neg (by omega)]
    rw [if_neg (by rw [List.length_drop]; omega)]
    rw [List.drop_drop]
  · intro hlen
    unfold simpleHandshake
    rw [if_pos hlen]
  · intro e he
    unfold simpleHandshake at he
    split at he
    · exact (Except.error.inj he).symm
    · split at he
      · exact (Except.error.inj he).symm
      · exact Except.noConfusion he

/-- **C5** (witness): both halves of the amended statement evaluated — the
full exchange on a 3073-byte input and the short-read error on a 1-byte
input. -/
theorem claim_C5_simple_handshake_witness :
    simpleHandshake (3 :: List.replicate 3072 65)
        = .ok ((3 :: List.replicate 3072 65 : List Nat).take 1537
                ++ List.replicate 1536 0,
               (3 :: List.replicate 3072 65 : List Nat).drop 3073)
      ∧ simpleHandshake [3] = .error .ioError :=
  ⟨(claim_C5_simple_handshake (3 :: List.replicate 3072 65)).1
      (by simp only [List.length_cons, List.length_replicate]; omega),
   (claim_C5_simple_handshake [3]).2.1 (by decide)⟩

/-! ## Connect packet decoding (`src/rtmp/messages.go`, `ConnectAppPacket.Decode`) -/

/-- `ConnectAppPacket`: command name, transaction id (`float64`, kept as its
bit pattern), command object. -/
structure ConnectAppPacket where
  commandName : List Nat
  transactionId : Nat
  commandObject : List (List Nat × Amf0Any)

/-- Modelled from the spec: the command-name constant
`AMF0_COMMAND_CONNECT = "connect"` (defined in a repository file not under
`src/`; fixed by the spec command vocabulary, §6). -/
def AMF0_COMMAND_CONNECT : List Nat := [99, 111, 110, 110, 101, 99, 116]

/-- `math.Float64bits 1.0`.  The Go comparison `TransactionId != 1.0` holds
exactly when the bit pattern differs from this value: 1.0 is not a NaN and
not a signed zero, so float equality with 1.0 coincides with bit equality. -/
def float64BitsOne : Nat := 4607182418800017408

/-- `ConnectAppPacket.Decode`: AMF0 string (must be "connect"), AMF0 number
(must be 1.0, else `ERROR_RTMP_AMF0_DECODE`), AMF0 object.  The source's
final `CommandObject == nil` check can never fire (`ReadObject` always
returns a fresh object) and is omitted. -/
def connectAppPacketDecode (s : List Nat) : Except Err ConnectAppPacket :=
  match codecReadString s with
  | .error e => .error e
  | .ok (name, s1) =>
    if name ≠ AMF0_COMMAND_CONNECT then .error .amf0Decode
    else
      match codecReadNumber s1 with
      | .error e => .error e
      | .ok (tid, s2) =>
        if tid ≠ float64BitsOne then .error .amf0Decode
        else
          match amf0ObjectRead (s2.length + 1) s2 with
          | .error e => .error e
          | .ok (props, _) =>
            .ok { commandName := name, transactionId := tid, commandObject := props }

/-- **C10.**  `ConnectAppPacket.Decode` succeeds only when the first AMF0
value is the string "connect" and the second is the number 1.0; in
particular a connect command whose transaction id is any other float64 is
rejected with the Amf0Decode error rather than surfaced. -/
theorem claim_C10_connect_decode :
    (∀ s pkt, connectAppPacketDecode s = .ok pkt →
       pkt.commandName = AMF0_COMMAND_CONNECT
         ∧ pkt.transactionId = float64BitsOne)
    ∧ (∀ b t, b < 2 ^ 64 → b ≠ float64BitsOne →
        connectAppPacketDecode
            (amf0AnyWrite (.str AMF0_COMMAND_CONNECT)
              ++ (amf0AnyWrite (.num b) ++ t))
          = .error .amf0Decode) := by
  constructor
  · intro s pkt h
    unfold connectAppPacketDecode at h
    split at h
    · exact absurd h (by simp)
    · rename_i name s1 heq1
      split at h
      · exact absurd h (by simp)
      · rename_i hname
        split at h
        · exact absurd h (by simp)
        · rename_i tid s2 heq2
          split at h
          · exact absurd h (by simp)
          · rename_i htid
            split at h
            · exact absurd h (by simp)
            · rename_i props s3 heq3
              injection h with hpkt
              subst hpkt
              exact ⟨by simpa using hname, by simpa using htid⟩
  · intro b t hb hbne
    have hb2 : b < 256 ^ 8 := by
      have h64 : (2 : Nat) ^ 64 = 256 ^ 8 := by norm_num
      rw [h64] at hb
      exact hb
    have hstr : codecReadString
        (amf0AnyWrite (.str AMF0_COMMAND_CONNECT)
          ++ (amf0AnyWrite (.num b) ++ t))
        = .ok (AMF0_COMMAND_CONNECT, amf0AnyWrite (.num b) ++ t) := by
      have h2 : amf0AnyWrite (.str AMF0_COMMAND_CONNECT)
            ++ (amf0AnyWrite (.num b) ++ t)
          = 2 :: (writeUtf8 AMF0_COMMAND_CONNECT
              ++ (amf0AnyWrite (.num b) ++ t)) := by
        simp [amf0AnyWrite]
      rw [h2]
      simp only [codecReadString, if_pos rfl]
      exact codecReadUtf8_writeUtf8 AMF0_COMMAND_CONNECT
        (amf0AnyWrite (.num b) ++ t) (by decide)
    have hnum : codecReadNumber (amf0AnyWrite (.num b) ++ t) = .ok (b, t) := by
      have h0 : amf0AnyWrite (.num b) ++ t = 0 :: (natToBytes 8 b ++ t) := by
        simp [amf0AnyWrite]
      have hlen : ¬ (natToBytes 8 b ++ t).length < 8 := by
        simp [List.length_append]
      have htake : (natToBytes 8 b ++ t).take 8 = natToBytes 8 b :=
        List.take_left' (natToBytes_length 8 b)
      have hdrop : (natToBytes 8 b ++ t).drop 8 = t :=
        List.drop_left' (natToBytes_length 8 b)
      have hbe : beVal (natToBytes 8 b) = b := beVal_natToBytes_self 8 b hb2
      rw [h0]
      simp [codecReadNumber, hlen, htake, hdrop, hbe]
    unfold connectAppPacketDecode
    rw [hstr]
    simp only []
    rw [if_neg (by simp)]
    rw [hnum]
    simp only []
    rw [if_pos hbne]

/-- A concrete valid connect payload: "connect", 1.0, and an object with one
property ("app" → "live" as a string). -/
def c10Payload : List Nat :=
  amf0AnyWrite (.str AMF0_COMMAND_CONNECT)
    ++ (amf0AnyWrite (.num float64BitsOne)
    ++ amf0AnyWrite (.obj [([97, 112, 112], .str [108, 105, 118, 101])]))

/-- The packet decoded from `c10Payload`. -/
def c10Pkt : ConnectAppPacket :=
  { commandName := AMF0_COMMAND_CONNECT,
    transactionId := float64BitsOne,
    commandObject := [([97, 112, 112], .str [108, 105, 118, 101])] }

/-- **C10** (witness): the success direction evaluated on `c10Payload` and
the rejection direction evaluated on transaction id 2.0
(bits 0x4000000000000000). -/
theorem claim_C10_connect_decode_witness :
    (c10Pkt.commandName = AMF0_COMMAND_CONNECT
      ∧ c10Pkt.transactionId = float64BitsOne)
    ∧ connectAppPacketDecode
          (amf0AnyWrite (.str AMF0_COMMAND_CONNECT)
            ++ (amf0AnyWrite (.num 4611686018427387904) ++ []))
        = .error .amf0Decode :=
  ⟨claim_C10_connect_decode.1 c10Payload c10Pkt rfl,
   claim_C10_connect_decode.2 4611686018427387904 [] (by decide) (by decide)⟩

end GoRtmp
